import Mathlib

/-!
Verification development for the `acmg` command-line tool (src/main.rs).

The tool classifies the clinical significance of a genetic variant from a
free-text list of ACMG evidence codes.  The definitions below are a shallow
embedding of the Rust source: the fixed rule table `EVIDENCE_CODES`, the
token normalizer `normalize_input`, the evidence-code matcher (the regex
`([BP][AVSMP]{1,2}\d{1})(_([A-Z]+))?`, searched unanchored, embedded as
`reSearch`), the token reader `parse_evidence`, the score and
classification functions, and the BTreeSet-based deduplication/ordering
used by `run_info_command` (embedded as `ofListE` / `runInfo`).

Modelling conventions:
* Rust `i32` values are embedded as `Int` (all values arising here are tiny,
  far from overflow).
* Rust `str::to_uppercase` / `str::trim` are embedded with Lean's ASCII
  `Char.toUpper` and `Char.isWhitespace`; the inputs the program is about
  are ASCII, where the two agree.
* The regex character class `\d` is embedded as the ASCII digits, `[A-Z]`
  as the ASCII uppercase letters.
* The `println!` based report of `run_info_command` is embedded as a
  structured `Report` value; the panic of `.unwrap()` on a parse error is
  embedded as `Except.error` carrying the parse error message.  The
  floating-point line (`calc_post_prob_path`, an `f64` computation) is not
  part of the embedded report.
-/

namespace Acmg

/-- Category of an evidence code: direction of the evidence (src/main.rs,
`enum Category`). -/
inductive Category where
  | Pathogenic
  | Benign
deriving DecidableEq, Repr

/-- Strength levels of ACMG evidence, strongest first (src/main.rs,
`enum EvidenceStrength`, declaration order = derived `Ord` order). -/
inductive EvidenceStrength where
  | StandAlone
  | VeryStrong
  | Strong
  | Moderate
  | Supporting
deriving DecidableEq, Repr

open Category EvidenceStrength

/-- Point magnitude of a strength level (src/main.rs, `EvidenceStrength::points`). -/
def EvidenceStrength.points : EvidenceStrength → Int
  | StandAlone | VeryStrong => 8
  | Strong => 4
  | Moderate => 2
  | Supporting => 1

/-- Static rule-table entry (src/main.rs, `struct EvidenceCode`).  The Rust
field `code: i32` is embedded as `Int`. -/
structure EvidenceCode where
  category : Category
  strength : EvidenceStrength
  code : Int
  description : String
deriving DecidableEq, Repr

/-- One parsed input token (src/main.rs, `struct Evidence`).  In Rust the
field `evidence_code` is a shared reference into the fixed table; its derived
equality and ordering compare the referenced value, so it is embedded by
value. -/
structure Evidence where
  evidence_code : EvidenceCode
  modifier : Option EvidenceStrength
deriving DecidableEq, Repr

/-- Signed points contributed by one evidence item (src/main.rs,
`Evidence::points`): the effective strength is the modifier when present,
else the code's default strength; Pathogenic counts positive, Benign
negative. -/
def Evidence.points (e : Evidence) : Int :=
  let p := (e.modifier.getD e.evidence_code.strength).points
  if e.evidence_code.category = Pathogenic then p else -p

/-- Five-level classification result (src/main.rs, `enum AcmgClassification`). -/
inductive AcmgClassification where
  | Pathogenic
  | LikelyPathogenic
  | UncertainSignificance
  | LikelyBenign
  | Benign
deriving DecidableEq, Repr

/-- Total score to classification (src/main.rs, `fn classification`): the
Rust `match` with guards `p >= 10`, `p >= 6`, `p >= 0`, `p >= -6`, else. -/
def classification (points : Int) : AcmgClassification :=
  if points ≥ 10 then .Pathogenic
  else if points ≥ 6 then .LikelyPathogenic
  else if points ≥ 0 then .UncertainSignificance
  else if points ≥ -6 then .LikelyBenign
  else .Benign

/-- The fixed rule table (src/main.rs, `EVIDENCE_CODES`), embedded as an
association list; the Rust `HashMap` lookup is `List.lookup` (the keys are
pairwise distinct, see `EVIDENCE_CODES_spec`). -/
def EVIDENCE_CODES : List (String × EvidenceCode) := [
  ("PVS1", ⟨Pathogenic, VeryStrong, 1, "Null variant (nonsense, frameshift, canonical ±1 or 2 splice sites, initiation codon, single or multiexon deletion) in a gene where LOF is a known mechanism of disease"⟩),
  ("PS1", ⟨Pathogenic, Strong, 1, "Same amino acid change as a previously established pathogenic variant regardless of nucleotide change"⟩),
  ("PS2", ⟨Pathogenic, Strong, 2, "De novo (both maternity and paternity confirmed) in a patient with the disease and no family history"⟩),
  ("PS3", ⟨Pathogenic, Strong, 3, "Well-established in vitro or in vivo functional studies supportive of a damaging effect on the gene or gene product"⟩),
  ("PS4", ⟨Pathogenic, Strong, 4, "The prevalence of the variant in affected individuals is significantly increased compared with the prevalence in controls"⟩),
  ("PM1", ⟨Pathogenic, Moderate, 1, "Located in a mutational hot spot and/or critical and well-established functional domain (e.g., active site of an enzyme) without benign variation"⟩),
  ("PM2", ⟨Pathogenic, Moderate, 2, "Absent from controls (or at extremely low frequency if recessive) in Exome Sequencing Project, 1000 Genomes Project, or Exome Aggregation Consortium"⟩),
  ("PM3", ⟨Pathogenic, Moderate, 3, "For recessive disorders, detected in trans with a pathogenic variant"⟩),
  ("PM4", ⟨Pathogenic, Moderate, 4, "Protein length changes as a result of in-frame deletions/insertions in a nonrepeat region or stop-loss variants"⟩),
  ("PM5", ⟨Pathogenic, Moderate, 5, "Novel missense change at an amino acid residue where a different missense change determined to be pathogenic has been seen before"⟩),
  ("PM6", ⟨Pathogenic, Moderate, 6, "Assumed de novo, but without confirmation of paternity and maternity"⟩),
  ("PP1", ⟨Pathogenic, Supporting, 1, "Cosegregation with disease in multiple affected family members in a gene definitively known to cause the disease"⟩),
  ("PP2", ⟨Pathogenic, Supporting, 2, "Missense variant in a gene that has a low rate of benign missense variation and in which missense variants are a common mechanism of disease"⟩),
  ("PP3", ⟨Pathogenic, Supporting, 3, "Multiple lines of computational evidence support a deleterious effect on the gene or gene product (conservation, evolutionary, splicing impact, etc.)"⟩),
  ("PP4", ⟨Pathogenic, Supporting, 4, "Patient’s phenotype or family history is highly specific for a disease with a single genetic etiology"⟩),
  ("PP5", ⟨Pathogenic, Supporting, 5, "Reputable source recently reports variant as pathogenic, but the evidence is not available to the laboratory to perform an independent evaluation"⟩),
  ("BA1", ⟨Benign, StandAlone, 1, "Allele frequency is >5% in Exome Sequencing Project, 1000 Genomes Project, or Exome Aggregation Consortium"⟩),
  ("BS1", ⟨Benign, Strong, 1, "Allele frequency is greater than expected for disorder"⟩),
  ("BS2", ⟨Benign, Strong, 2, "Observed in a healthy adult individual for a recessive (homozygous), dominant (heterozygous), or X-linked (hemizygous) disorder, with full penetrance expected at an early age"⟩),
  ("BS3", ⟨Benign, Strong, 3, "Well-established in vitro or in vivo functional studies show no damaging effect on protein function or splicing"⟩),
  ("BS4", ⟨Benign, Strong, 4, "Lack of segregation in affected members of a family"⟩),
  ("BP1", ⟨Benign, Supporting, 1, "Missense variant in a gene for which primarily truncating variants are known to cause disease"⟩),
  ("BP2", ⟨Benign, Supporting, 2, "Observed in trans with a pathogenic variant for a fully penetrant dominant gene/disorder or observed in cis with a pathogenic variant in any inheritance pattern"⟩),
  ("BP3", ⟨Benign, Supporting, 3, "In-frame deletions/insertions in a repetitive region without a known function"⟩),
  ("BP4", ⟨Benign, Supporting, 4, "Multiple lines of computational evidence suggest no impact on gene or gene product (conservation, evolutionary, splicing impact, etc.)"⟩),
  ("BP5", ⟨Benign, Supporting, 5, "Variant found in a case with an alternate molecular basis for disease"⟩),
  ("BP6", ⟨Benign, Supporting, 6, "Reputable source recently reports variant as benign, but the evidence is not available to the laboratory to perform an independent evaluation"⟩),
  ("BP7", ⟨Benign, Supporting, 7, "A synonymous (silent) variant for which splicing prediction algorithms predict no impact to the splice consensus sequence nor the creation of a new splice site AND the nucleotide is not highly conserved"⟩)]

/-- Character class `[BP]` of the evidence-code regex. -/
def isCatB (c : Char) : Bool := c = 'B' || c = 'P'

/-- Character class `[AVSMP]` of the evidence-code regex. -/
def isSLB (c : Char) : Bool := c = 'A' || c = 'V' || c = 'S' || c = 'M' || c = 'P'

/-- Character class `\d` of the evidence-code regex (ASCII digits). -/
def isDigitB (c : Char) : Bool := '0' ≤ c && c ≤ '9'

/-- Character class `[A-Z]` of the evidence-code regex. -/
def isUpperAZ (c : Char) : Bool := 'A' ≤ c && c ≤ 'Z'

/-- Matcher for the optional greedy group `(_([A-Z]+))?` of the regex: given
the text after group 1, return the captured group-3 text (when the group
matches) and the remaining text. -/
def takeMod : List Char → Option (List Char) × List Char
  | '_' :: c :: cs =>
    if isUpperAZ c then ((c :: cs).takeWhile isUpperAZ, (c :: cs).dropWhile isUpperAZ)
    else (none, '_' :: c :: cs)
  | rest => (none, rest)

/-- Matcher for the regex `([BP][AVSMP]{1,2}\d{1})(_([A-Z]+))?` at the start
of the text: the greedy `{1,2}` first tries two strength letters, then one
(the two branches are in fact mutually exclusive, as `[AVSMP]` and `\d` are
disjoint).  Returns (group 1, group 3, remaining text) on a match. -/
def matchAt : List Char → Option (List Char × Option (List Char) × List Char)
  | c0 :: c1 :: rest =>
    if isCatB c0 && isSLB c1 then
      match rest with
      | c2 :: c3 :: rest2 =>
        if isSLB c2 && isDigitB c3 then
          let (m, r) := takeMod rest2
          some ([c0, c1, c2, c3], m, r)
        else if isDigitB c2 then
          let (m, r) := takeMod (c3 :: rest2)
          some ([c0, c1, c2], m, r)
        else none
      | [c2] => if isDigitB c2 then some ([c0, c1, c2], none, []) else none
      | [] => none
    else none
  | _ => none

/-- Unanchored leftmost search of the evidence-code regex (`RE.captures` in
src/main.rs): try `matchAt` at each position, left to right, and return the
captures (group 1, group 3) of the first match. -/
def reSearch : List Char → Option (List Char × Option (List Char))
  | [] => none
  | c :: t =>
    match matchAt (c :: t) with
    | some (g1, g3, _) => some (g1, g3)
    | none => reSearch t

/-- Uppercased string, embedding Rust `str::to_uppercase` on ASCII input. -/
def upper (s : String) : String := String.mk (s.toList.map Char.toUpper)

/-- Token reader (src/main.rs, `fn parse_evidence`): search the uppercased
token for the regex; look the captured code up in the table; resolve the
optional modifier.  The error strings are those of the source, with the
original (not uppercased) token interpolated where the source writes
`{evidence}`. -/
def parse_evidence (evidence : String) : Except String Evidence :=
  match reSearch (upper evidence).toList with
  | none => .error ("Unable to parse evidence code " ++ evidence)
  | some (g1, g3) =>
    let ev_code_str := String.mk g1
    match List.lookup ev_code_str EVIDENCE_CODES with
    | none => .error ("Invalid evidence code " ++ ev_code_str)
    | some ec =>
      -- `caps.get(3).map_or("", …)`: an absent group becomes the empty
      -- string, which the source's match sends to `None`.  The Rust match
      -- on the string value is a sequence of equality tests, in the
      -- source's arm order.
      let s := upper (String.mk (g3.getD []))
      if s = "STANDALONE" then .ok ⟨ec, some StandAlone⟩
      else if s = "VERYSTRONG" then .ok ⟨ec, some VeryStrong⟩
      else if s = "STRONG" then .ok ⟨ec, some Strong⟩
      else if s = "MODERATE" then .ok ⟨ec, some Moderate⟩
      else if s = "SUPPORTING" then .ok ⟨ec, some Supporting⟩
      else if s = "" then .ok ⟨ec, none⟩
      else .error ("Invalid modifier '" ++ s ++ "' for evidence code " ++ evidence)

/-- Separator class `[ ,]` of the token-splitting regex in `normalize_input`. -/
def isSepB (c : Char) : Bool := c = ' ' || c = ','

/-- Bracket class `[\[\]]` of the bracket-stripping regex in `normalize_input`. -/
def isBracketB (c : Char) : Bool := c = '[' || c = ']'

/-- Leading and trailing whitespace removed (Rust `str::trim`). -/
def trimEnds (cs : List Char) : List Char :=
  ((cs.dropWhile Char.isWhitespace).reverse.dropWhile Char.isWhitespace).reverse

/-- Splitting on each maximal nonempty run of separator characters, the
semantics of `Regex::new(r"[ ,]+").split`: the pieces between consecutive
matches of the regex, with an empty piece where the text starts or ends with
a separator run, and a single empty piece for the empty text. -/
def splitRuns : List Char → List (List Char)
  | [] => [[]]
  | [c] => if isSepB c then [[], []] else [[c]]
  | c :: d :: rest =>
    if isSepB c then
      -- a separator extends the current run; the run opens one boundary,
      -- charged to its last separator
      if isSepB d then splitRuns (d :: rest) else [] :: splitRuns (d :: rest)
    else
      match splitRuns (d :: rest) with
      | [] => [[c]]
      | t :: ts => (c :: t) :: ts

/-- Token normalizer (src/main.rs, `fn normalize_input`): remove every `[`
and `]`, trim the ends, split on runs of spaces and commas. -/
def normalize_input (acmg_evidence : String) : List String :=
  (splitRuns (trimEnds (acmg_evidence.toList.filter (fun c => !isBracketB c)))).map
    String.mk

/-- Rank of a category in the derived Rust `Ord` (declaration order). -/
def Category.rank : Category → Nat
  | Pathogenic => 0
  | Benign => 1

/-- Rank of a strength in the derived Rust `Ord` (declaration order,
strongest first). -/
def EvidenceStrength.rank : EvidenceStrength → Nat
  | StandAlone => 0
  | VeryStrong => 1
  | Strong => 2
  | Moderate => 3
  | Supporting => 4

/-- Rank of an optional modifier in the derived Rust `Ord` on
`Option<EvidenceStrength>`: `None` sorts first, `Some` values by the inner
strength. -/
def modRank : Option EvidenceStrength → Nat
  | none => 0
  | some s => 1 + s.rank

/-- Key type for the derived lexicographic `Ord` on `Evidence`.  The
description is compared as its character list (Rust compares `&str`
lexicographically; on the table's texts the two orders agree). -/
abbrev EKey := Lex (Nat × Lex (Nat × Lex (Int × Lex (List Char × Nat))))

/-- Sort key of an `Evidence` value, mirroring the derived Rust `Ord`:
`Evidence` compares its `evidence_code` field first (itself lexicographic in
`category`, `strength`, `code`, `description`, in declaration order), then
`modifier`. -/
def Evidence.key (e : Evidence) : EKey :=
  toLex (e.evidence_code.category.rank,
    toLex (e.evidence_code.strength.rank,
      toLex (e.evidence_code.code,
        toLex (e.evidence_code.description.toList, modRank e.modifier))))

/-- Strict order on `Evidence`, the derived Rust `Ord`. -/
def evLt (a b : Evidence) : Prop := a.key < b.key

instance : DecidableRel evLt := fun a b => inferInstanceAs (Decidable (a.key < b.key))

/-- Ordered insertion into a strictly sorted list, the semantics of
`BTreeSet::insert`: an element equal to one already present is dropped. -/
def insertE (x : Evidence) : List Evidence → List Evidence
  | [] => [x]
  | y :: ys =>
    if evLt x y then x :: y :: ys
    else if x = y then y :: ys
    else y :: insertE x ys

/-- The contents of `BTreeSet::from_iter` in iteration (ascending) order:
every element inserted in turn (src/main.rs, `run_info_command`). -/
def ofListE (l : List Evidence) : List Evidence :=
  l.foldl (fun acc x => insertE x acc) []

/-- Left-to-right parsing of every token, stopping at the first failure: the
semantics of `.map(|c| parse_evidence(c).unwrap())` consumed by
`BTreeSet::from_iter`, with the panic embedded as the error. -/
def parseAll : List String → Except String (List Evidence)
  | [] => .ok []
  | t :: ts =>
    match parse_evidence t with
    | .error e => .error e
    | .ok ev =>
      match parseAll ts with
      | .error e => .error e
      | .ok evs => .ok (ev :: evs)

/-- Structured content of the textual report printed by `run_info_command`:
the displayed evidence entries with their points, in display order, and the
classification and total score lines.  (The floating-point probability line
is outside the embedding.) -/
structure Report where
  entries : List (Evidence × Int)
  label : AcmgClassification
  score : Int
deriving DecidableEq, Repr

/-- The classification run (src/main.rs, `fn run_info_command`): normalize,
parse every token (a failure aborts the whole run), deduplicate and order,
then score, classify and report. -/
def runInfo (acmg_evidence : String) : Except String Report :=
  match parseAll (normalize_input acmg_evidence) with
  | .error e => .error e
  | .ok evs =>
    let set := ofListE evs
    let score := set.foldl (fun acc e => acc + e.points) 0
    .ok ⟨set.map (fun e => (e, e.points)), classification score, score⟩

/-- Letter of a category in a canonical code string (src/main.rs,
`impl Display for EvidenceCode`). -/
def categoryLetter : Category → String
  | Pathogenic => "P"
  | Benign => "B"

/-- Letters of a strength in a canonical code string (src/main.rs,
`impl Display for EvidenceCode`); Supporting's letter is `P`. -/
def strengthLetters : EvidenceStrength → String
  | StandAlone => "A"
  | VeryStrong => "VS"
  | Strong => "S"
  | Moderate => "M"
  | Supporting => "P"

/-- Canonical spelling of a rule-table key from its entry:
`<category letter><strength letters><code>`. -/
def keySpelling (ec : EvidenceCode) : String :=
  categoryLetter ec.category ++ strengthLetters ec.strength ++ toString ec.code

/-- Number of rule-table entries with the given category and strength. -/
def countCS (c : Category) (s : EvidenceStrength) : Nat :=
  (EVIDENCE_CODES.filter fun p => decide (p.2.category = c ∧ p.2.strength = s)).length

/-- Modelled from the spec: base point magnitude by effective strength
(§4.5), stated with one case per strength level to compare against the
source's merged match arms. -/
def magnitudeSpec : EvidenceStrength → Int
  | StandAlone => 8
  | VeryStrong => 8
  | Strong => 4
  | Moderate => 2
  | Supporting => 1

/-- Modelled from the spec: the five recognized modifier names (§4.3 step 5)
and the strength each one names; any other (nonempty) suffix is invalid. -/
def strengthOfName (s : String) : Option EvidenceStrength :=
  if s = "STANDALONE" then some StandAlone
  else if s = "VERYSTRONG" then some VeryStrong
  else if s = "STRONG" then some Strong
  else if s = "MODERATE" then some Moderate
  else if s = "SUPPORTING" then some Supporting
  else none

/-- Whether `needle` begins `hay`. -/
def leadsList : List Char → List Char → Bool
  | [], _ => true
  | _ :: _, [] => false
  | a :: as, b :: bs => a = b && leadsList as bs

/-- Whether `needle` occurs contiguously inside `hay` (used to state that an
error message cites a token). -/
def hasSub (needle : List Char) : List Char → Bool
  | [] => needle.isEmpty
  | c :: t => leadsList needle (c :: t) || hasSub needle t

/-- Remainders of the text after each possible match of group 1
(`[BP][AVSMP]{1,2}\d{1}`) at the start of the text. -/
def g1Rests : List Char → List (List Char)
  | c0 :: c1 :: c2 :: c3 :: r =>
    (if isCatB c0 && isSLB c1 && isSLB c2 && isDigitB c3 then [r] else []) ++
      (if isCatB c0 && isSLB c1 && isDigitB c2 then [c3 :: r] else [])
  | [c0, c1, c2] => if isCatB c0 && isSLB c1 && isDigitB c2 then [[]] else []
  | _ => []

/-- Whether the whole text matches the evidence-code grammar
`([BP][AVSMP]{1,2}\d{1})(_([A-Z]+))?` with nothing before or after the
match. -/
def wholeMatchB (cs : List Char) : Bool :=
  (g1Rests cs).any fun r =>
    r.isEmpty ||
      (match r with
       | '_' :: m => !m.isEmpty && m.all isUpperAZ
       | _ => false)

end Acmg

deriving instance DecidableEq for Except

namespace Acmg

/-! Helper lemmas: the derived order on `Evidence`. -/

theorem categoryRank_inj {c d : Category} (h : c.rank = d.rank) : c = d := by
  cases c <;> cases d <;> simp_all [Category.rank]

theorem strengthRank_inj {c d : EvidenceStrength} (h : c.rank = d.rank) :
    c = d := by
  cases c <;> cases d <;> simp_all [EvidenceStrength.rank]

theorem modRank_inj {m n : Option EvidenceStrength} (h : modRank m = modRank n) :
    m = n := by
  cases m with
  | none =>
    cases n with
    | none => rfl
    | some t => simp only [modRank] at h; omega
  | some s =>
    cases n with
    | none => simp only [modRank] at h; omega
    | some t =>
      simp only [modRank, Nat.add_right_cancel_iff] at h
      exact congrArg some (strengthRank_inj (by omega))

theorem key_inj {a b : Evidence} (h : a.key = b.key) : a = b := by
  obtain ⟨⟨ac, as, acode, ad⟩, am⟩ := a
  obtain ⟨⟨bc, bs, bcode, bd⟩, bm⟩ := b
  simp only [Evidence.key, toLex_inj, Prod.mk.injEq] at h
  obtain ⟨h1, h2, h3, h4, h5⟩ := h
  simp only [Evidence.mk.injEq, EvidenceCode.mk.injEq]
  exact ⟨⟨categoryRank_inj h1, strengthRank_inj h2, h3,
    String.toList_inj.mp h4⟩, modRank_inj h5⟩

theorem evLt_irrefl (a : Evidence) : ¬ evLt a a := lt_irrefl a.key

theorem evLt_trans {a b c : Evidence} (h1 : evLt a b) (h2 : evLt b c) : evLt a c :=
  lt_trans h1 h2

theorem evLt_asymm {a b : Evidence} (h1 : evLt a b) (h2 : evLt b a) : False :=
  lt_asymm h1 h2

theorem evLt_of_not {a b : Evidence} (h1 : ¬ evLt a b) (h2 : a ≠ b) : evLt b a := by
  rcases lt_trichotomy a.key b.key with h | h | h
  · exact absurd h h1
  · exact absurd (key_inj h) h2
  · exact h

theorem evLt_ne {a b : Evidence} (h : evLt a b) : a ≠ b := by
  rintro rfl
  exact evLt_irrefl a h

/-! Helper lemmas: the `BTreeSet` model. -/

theorem mem_insertE (x : Evidence) :
    ∀ (l : List Evidence) (y : Evidence), y ∈ insertE x l ↔ y = x ∨ y ∈ l := by
  intro l
  induction l with
  | nil => simp [insertE]
  | cons h t ih =>
    intro y
    simp only [insertE]
    split
    · simp [List.mem_cons, or_comm, or_assoc, or_left_comm]
    · split
      · next heq => subst heq; simp only [List.mem_cons]; tauto
      · simp only [List.mem_cons, ih]; tauto

theorem sorted_insertE (x : Evidence) :
    ∀ l : List Evidence, l.Sorted evLt → (insertE x l).Sorted evLt := by
  intro l
  induction l with
  | nil => simp [insertE]
  | cons h t ih =>
    intro hs
    rw [List.sorted_cons] at hs
    simp only [insertE]
    split
    · next hlt =>
      rw [List.sorted_cons]
      refine ⟨fun b hb => ?_, by rw [List.sorted_cons]; exact hs⟩
      rcases List.mem_cons.mp hb with rfl | hb
      · exact hlt
      · exact evLt_trans hlt (hs.1 b hb)
    · next hnlt =>
      split
      · next heq => subst heq; rw [List.sorted_cons]; exact hs
      · next hne =>
        rw [List.sorted_cons]
        refine ⟨fun b hb => ?_, ih hs.2⟩
        rcases (mem_insertE x t b).mp hb with rfl | hb
        · exact evLt_of_not hnlt fun hxy => hne hxy
        · exact hs.1 b hb

theorem mem_foldl_insertE :
    ∀ (l : List Evidence) (acc : List Evidence) (y : Evidence),
      y ∈ l.foldl (fun acc x => insertE x acc) acc ↔ y ∈ acc ∨ y ∈ l := by
  intro l
  induction l with
  | nil => simp
  | cons h t ih =>
    intro acc y
    simp only [List.foldl_cons, ih, mem_insertE, List.mem_cons]
    tauto

theorem sorted_foldl_insertE :
    ∀ (l : List Evidence) (acc : List Evidence), acc.Sorted evLt →
      (l.foldl (fun acc x => insertE x acc) acc).Sorted evLt := by
  intro l
  induction l with
  | nil => intro acc h; simpa using h
  | cons h t ih => intro acc hacc; exact ih _ (sorted_insertE h acc hacc)

theorem mem_ofListE (l : List Evidence) (y : Evidence) : y ∈ ofListE l ↔ y ∈ l := by
  simp [ofListE, mem_foldl_insertE]

theorem sorted_ofListE (l : List Evidence) : (ofListE l).Sorted evLt :=
  sorted_foldl_insertE l [] (by simp)

theorem nodup_of_sorted {l : List Evidence} (h : l.Sorted evLt) : l.Nodup :=
  List.Pairwise.imp (fun hab => evLt_ne hab) h

theorem sorted_mem_eq :
    ∀ {l₁ l₂ : List Evidence}, l₁.Sorted evLt → l₂.Sorted evLt →
      (∀ x, x ∈ l₁ ↔ x ∈ l₂) → l₁ = l₂ := by
  intro l₁
  induction l₁ with
  | nil =>
    intro l₂ _ _ hm
    cases l₂ with
    | nil => rfl
    | cons b t₂ => exact absurd ((hm b).mpr (List.mem_cons_self b t₂)) (by simp)
  | cons a t₁ ih =>
    intro l₂ h₁ h₂ hm
    cases l₂ with
    | nil => exact absurd ((hm a).mp (List.mem_cons_self a t₁)) (by simp)
    | cons b t₂ =>
      rw [List.sorted_cons] at h₁ h₂
      have hab : a = b := by
        rcases List.mem_cons.mp ((hm a).mp (List.mem_cons_self a t₁)) with h | h
        · exact h
        · rcases List.mem_cons.mp ((hm b).mpr (List.mem_cons_self b t₂)) with h' | h'
          · exact h'.symm
          · exact absurd (h₂.1 a h) fun _ => evLt_asymm (h₁.1 b h') (h₂.1 a h)
      subst hab
      have htails : ∀ x, x ∈ t₁ ↔ x ∈ t₂ := by
        intro x
        constructor
        · intro hx
          rcases List.mem_cons.mp ((hm x).mp (List.mem_cons_of_mem a hx)) with rfl | h
          · exact absurd (h₁.1 x hx) (evLt_irrefl x)
          · exact h
        · intro hx
          rcases List.mem_cons.mp ((hm x).mpr (List.mem_cons_of_mem a hx)) with rfl | h
          · exact absurd (h₂.1 x hx) (evLt_irrefl x)
          · exact h
      rw [ih h₁.2 h₂.2 htails]

/-! Helper lemmas: aborting on the first parse error. -/

theorem parseAll_error_at :
    ∀ (pre : List String) (t : String) (post : List String) (msg : String),
      (∀ u ∈ pre, ∃ ev, parse_evidence u = Except.ok ev) →
      parse_evidence t = Except.error msg →
      parseAll (pre ++ t :: post) = Except.error msg := by
  intro pre
  induction pre with
  | nil =>
    intro t post msg _ herr
    simp only [List.nil_append, parseAll, herr]
  | cons u rest ih =>
    intro t post msg hpre herr
    obtain ⟨ev, hev⟩ := hpre u (List.mem_cons_self u rest)
    have hr := ih t post msg (fun v hv => hpre v (List.mem_cons_of_mem u hv)) herr
    simp only [List.cons_append, parseAll, hev, List.append_eq, hr]

theorem parseAll_ok_iff :
    ∀ ts : List String, (∃ evs, parseAll ts = Except.ok evs) ↔
      ∀ u ∈ ts, ∃ ev, parse_evidence u = Except.ok ev := by
  intro ts
  induction ts with
  | nil => simp [parseAll]
  | cons t rest ih =>
    simp only [parseAll, List.mem_cons]
    constructor
    · rintro ⟨evs, hevs⟩ u hu
      rcases hp : parse_evidence t with e | ev <;> rw [hp] at hevs
      · cases hevs
      · rcases hr : parseAll rest with e | evs' <;> rw [hr] at hevs
        · cases hevs
        · rcases hu with rfl | hu
          · exact ⟨ev, hp⟩
          · exact ih.mp ⟨evs', hr⟩ u hu
    · intro hall
      obtain ⟨ev, hev⟩ := hall t (Or.inl rfl)
      obtain ⟨evs', hevs'⟩ := ih.mpr fun u hu => hall u (Or.inr hu)
      exact ⟨ev :: evs', by simp only [hev, hevs']⟩

/-! Helper lemmas: association-list lookup. -/

theorem lookup_isSome_iff {β : Type} (s : String) :
    ∀ l : List (String × β), (List.lookup s l).isSome = true ↔ s ∈ l.map Prod.fst := by
  intro l
  induction l with
  | nil => simp [List.lookup]
  | cons p rest ih =>
    obtain ⟨k, v⟩ := p
    simp only [List.lookup, List.map_cons, List.mem_cons]
    by_cases hk : s = k
    · subst hk; simp
    · rw [show (s == k) = false from beq_eq_false_iff_ne.mpr hk]
      simp [ih, hk]

/-! Helper lemmas: the token normalizer. -/

theorem mem_splitRuns_chars :
    ∀ (cs : List Char) (p : List Char), p ∈ splitRuns cs →
      ∀ c ∈ p, c ∈ cs ∧ isSepB c = false := by
  intro cs
  induction cs with
  | nil => intro p hp c hc; simp only [splitRuns, List.mem_singleton] at hp; subst hp; cases hc
  | cons a rest ih =>
    intro p hp c hc
    cases rest with
    | nil =>
      simp only [splitRuns] at hp
      by_cases ha : isSepB a
      · rw [if_pos ha] at hp
        rcases List.mem_cons.mp hp with rfl | hp
        · cases hc
        · simp only [List.mem_singleton] at hp; subst hp; cases hc
      · rw [if_neg ha] at hp
        simp only [List.mem_singleton] at hp
        subst hp
        rcases List.mem_singleton.mp hc with rfl
        exact ⟨List.mem_singleton.mpr rfl, by simpa using ha⟩
    | cons d rest2 =>
      simp only [splitRuns] at hp
      by_cases ha : isSepB a
      · rw [if_pos ha] at hp
        by_cases hd : isSepB d
        · rw [if_pos hd] at hp
          have := ih p hp c hc
          exact ⟨List.mem_cons_of_mem a this.1, this.2⟩
        · rw [if_neg hd] at hp
          rcases List.mem_cons.mp hp with rfl | hp
          · cases hc
          · have := ih p hp c hc
            exact ⟨List.mem_cons_of_mem a this.1, this.2⟩
      · rw [if_neg ha] at hp
        rcases hr : splitRuns (d :: rest2) with _ | ⟨t, ts⟩
        · rw [hr] at hp
          simp only [List.mem_singleton] at hp
          subst hp
          rcases List.mem_singleton.mp hc with rfl
          exact ⟨List.mem_cons_self _ _, by simpa using ha⟩
        · rw [hr] at hp
          rcases List.mem_cons.mp hp with rfl | hp
          · rcases List.mem_cons.mp hc with rfl | hc
            · exact ⟨List.mem_cons_self _ _, by simpa using ha⟩
            · have := ih t (hr ▸ List.mem_cons_self t ts) c hc
              exact ⟨List.mem_cons_of_mem a this.1, this.2⟩
          · have := ih p (hr ▸ List.mem_cons_of_mem t hp) c hc
            exact ⟨List.mem_cons_of_mem a this.1, this.2⟩

theorem mem_trimEnds {c : Char} {l : List Char} (h : c ∈ trimEnds l) : c ∈ l := by
  simp only [trimEnds, List.mem_reverse] at h
  have h1 : c ∈ (l.dropWhile Char.isWhitespace).reverse :=
    (List.dropWhile_sublist _).subset h
  rw [List.mem_reverse] at h1
  exact (List.dropWhile_sublist _).subset h1

theorem trimEnds_all_ws {l : List Char} (h : ∀ c ∈ l, c.isWhitespace) :
    trimEnds l = [] := by
  have h1 : l.dropWhile Char.isWhitespace = [] := by
    rw [List.dropWhile_eq_nil_iff]
    intro x hx
    exact h x hx
  simp [trimEnds, h1]

/-! Helper lemmas: scoring. -/

theorem foldl_add_eq_sum :
    ∀ (l : List Evidence) (i : Int),
      l.foldl (fun acc e => acc + e.points) i = i + (l.map Evidence.points).sum := by
  intro l
  induction l with
  | nil => intro i; simp
  | cons h t ih => intro i; simp [ih, add_assoc]

/-! The claims. -/

set_option maxRecDepth 20000

/-- C3: `classification` is a total function on the integers with exactly
the stated thresholds — score ≥ 10 Pathogenic, 6 ≤ score < 10
LikelyPathogenic, 0 ≤ score < 6 UncertainSignificance, −6 ≤ score < 0
LikelyBenign, score < −6 Benign — including the listed boundary values, and
it has no error case (totality is the type of `classification`). -/
theorem classification_thresholds :
    (∀ s : Int,
      (classification s = AcmgClassification.Pathogenic ↔ 10 ≤ s) ∧
      (classification s = AcmgClassification.LikelyPathogenic ↔ 6 ≤ s ∧ s < 10) ∧
      (classification s = AcmgClassification.UncertainSignificance ↔ 0 ≤ s ∧ s < 6) ∧
      (classification s = AcmgClassification.LikelyBenign ↔ -6 ≤ s ∧ s < 0) ∧
      (classification s = AcmgClassification.Benign ↔ s < -6)) ∧
    classification 10 = AcmgClassification.Pathogenic ∧
    classification 9 = AcmgClassification.LikelyPathogenic ∧
    classification 6 = AcmgClassification.LikelyPathogenic ∧
    classification 5 = AcmgClassification.UncertainSignificance ∧
    classification 0 = AcmgClassification.UncertainSignificance ∧
    classification (-1) = AcmgClassification.LikelyBenign ∧
    classification (-6) = AcmgClassification.LikelyBenign ∧
    classification (-7) = AcmgClassification.Benign := by
  refine ⟨fun s => ?_, by decide, by decide, by decide, by decide, by decide,
    by decide, by decide, by decide⟩
  unfold classification
  split_ifs with h1 h2 h3 h4 <;> refine ⟨?_, ?_, ?_, ?_, ?_⟩ <;> simp <;> omega

/-- C2: the points of an `Evidence` are a signed magnitude determined by its
effective strength (the modifier when present, else the code's default),
with magnitude 8 for StandAlone and VeryStrong, 4 for Strong, 2 for
Moderate, 1 for Supporting, positive for Pathogenic and negative for
Benign; and the total score (the fold computed by `runInfo`) is the sum of
these points over the deduplicated evidence set. -/
theorem points_and_total_score_spec :
    (∀ e : Evidence,
      e.points =
        (match e.evidence_code.category with
         | Category.Pathogenic => magnitudeSpec (e.modifier.getD e.evidence_code.strength)
         | Category.Benign => -magnitudeSpec (e.modifier.getD e.evidence_code.strength))) ∧
    magnitudeSpec EvidenceStrength.StandAlone = 8 ∧
    magnitudeSpec EvidenceStrength.VeryStrong = 8 ∧
    magnitudeSpec EvidenceStrength.Strong = 4 ∧
    magnitudeSpec EvidenceStrength.Moderate = 2 ∧
    magnitudeSpec EvidenceStrength.Supporting = 1 ∧
    (∀ l : List Evidence,
      (ofListE l).foldl (fun acc e => acc + e.points) 0 =
        ((ofListE l).map Evidence.points).sum) := by
  refine ⟨?_, rfl, rfl, rfl, rfl, rfl, fun l => by rw [foldl_add_eq_sum]; simp⟩
  rintro ⟨⟨c, s, code, d⟩, m⟩
  rcases m with _ | st
  · cases c <;> cases s <;> rfl
  · cases c <;> cases st <;> rfl

/-- C7: the rule-table lookup succeeds exactly for the 28 canonical code
strings — 1 PVS, 4 PS, 6 PM, 5 PP, 1 BA, 4 BS, 7 BP — the keys are pairwise
distinct, and every entry's category, default strength and positive integer
code agree with the spelling of its key under the `P`/`B` and
`A`/`VS`/`S`/`M`/`P` letter encoding. -/
theorem rule_table_spec :
    (∀ s : String, (List.lookup s EVIDENCE_CODES).isSome = true ↔
      s ∈ EVIDENCE_CODES.map Prod.fst) ∧
    EVIDENCE_CODES.length = 28 ∧
    (EVIDENCE_CODES.map Prod.fst).Nodup ∧
    countCS Category.Pathogenic EvidenceStrength.VeryStrong = 1 ∧
    countCS Category.Pathogenic EvidenceStrength.Strong = 4 ∧
    countCS Category.Pathogenic EvidenceStrength.Moderate = 6 ∧
    countCS Category.Pathogenic EvidenceStrength.Supporting = 5 ∧
    countCS Category.Benign EvidenceStrength.StandAlone = 1 ∧
    countCS Category.Benign EvidenceStrength.Strong = 4 ∧
    countCS Category.Benign EvidenceStrength.Supporting = 7 ∧
    (EVIDENCE_CODES.all fun p => p.1 == keySpelling p.2 && decide (0 < p.2.code)) =
      true := by
  refine ⟨fun s => lookup_isSome_iff s EVIDENCE_CODES, by decide, by decide, by decide,
    by decide, by decide, by decide, by decide, by decide, by decide, by decide⟩

/-- C9 counterexample: the invalid-modifier message for the token
`PVS1_Nonsense` interpolates the original token, so it does not contain the
uppercased string `PVS1_NONSENSE` that the claim says it cites. -/
theorem modifier_error_lacks_uppercased_token :
    parse_evidence "PVS1_Nonsense" =
      Except.error "Invalid modifier 'NONSENSE' for evidence code PVS1_Nonsense" ∧
    hasSub "PVS1_NONSENSE".toList
      "Invalid modifier 'NONSENSE' for evidence code PVS1_Nonsense".toList = false := by
  decide

/-- C9 (amended): parsing `PZZ9` fails with a message citing the token
`PZZ9`, and parsing `PVS1_Nonsense` fails with a message citing the
modifier `NONSENSE` and the original token `PVS1_Nonsense` (not its
uppercased form). -/
theorem invalid_token_error_messages :
    parse_evidence "PZZ9" = Except.error "Unable to parse evidence code PZZ9" ∧
    hasSub "PZZ9".toList "Unable to parse evidence code PZZ9".toList = true ∧
    parse_evidence "PVS1_Nonsense" =
      Except.error "Invalid modifier 'NONSENSE' for evidence code PVS1_Nonsense" ∧
    hasSub "NONSENSE".toList
      "Invalid modifier 'NONSENSE' for evidence code PVS1_Nonsense".toList = true ∧
    hasSub "PVS1_Nonsense".toList
      "Invalid modifier 'NONSENSE' for evidence code PVS1_Nonsense".toList = true := by
  decide

/-- C10: the regex search is not anchored to the token's ends: `PM2X`,
`XPM2` and `PVS12` do not wholly match the grammar, yet each parses
successfully — the search finds the leftmost embedded match (`PM2`, `PM2`,
`PVS1` respectively) and ignores the surrounding characters. -/
theorem unanchored_regex_matches :
    wholeMatchB (upper "PM2X").toList = false ∧
    reSearch (upper "PM2X").toList = some ("PM2".toList, none) ∧
    parse_evidence "PM2X" = parse_evidence "PM2" ∧
    wholeMatchB (upper "XPM2").toList = false ∧
    reSearch (upper "XPM2").toList = some ("PM2".toList, none) ∧
    parse_evidence "XPM2" = parse_evidence "PM2" ∧
    wholeMatchB (upper "PVS12").toList = false ∧
    reSearch (upper "PVS12").toList = some ("PVS1".toList, none) ∧
    parse_evidence "PVS12" = parse_evidence "PVS1" ∧
    (parse_evidence "PM2").toOption.isSome = true ∧
    (parse_evidence "PVS1").toOption.isSome = true := by
  decide

/-- C1 counterexample: the parse-failure message starts with a capital
letter, `Unable to parse evidence code …`, not the lowercase
`unable to parse evidence code …` quoted by the claim (likewise `Invalid
evidence code …` and `Invalid modifier …`). -/
theorem parse_error_message_is_capitalized :
    parse_evidence "QQQ" = Except.error "Unable to parse evidence code QQQ" ∧
    parse_evidence "QQQ" ≠ Except.error "unable to parse evidence code QQQ" := by
  decide

/-- C1 (amended): for every token, `parse_evidence` uppercases it and
searches it for the grammar `(CategoryLetter StrengthLetters Digit)(_Modifier)?`;
when the grammar finds no match the result is the error
`Unable to parse evidence code {token}`; when it matches but the captured
code is no key of the rule table the result is `Invalid evidence code
{code}`; when a modifier suffix is captured and is not one of the five
recognized strength names the result is `Invalid modifier '{m}' for
evidence code {token}`; otherwise the result is an `Evidence` holding the
table entry and the optional modifier (unset when no suffix was captured). -/
theorem parse_evidence_cases (t : String) :
    (reSearch (upper t).toList = none →
      parse_evidence t = Except.error ("Unable to parse evidence code " ++ t)) ∧
    (∀ g1 g3, reSearch (upper t).toList = some (g1, g3) →
      (List.lookup (String.mk g1) EVIDENCE_CODES = none →
        parse_evidence t = Except.error ("Invalid evidence code " ++ String.mk g1)) ∧
      (∀ ec, List.lookup (String.mk g1) EVIDENCE_CODES = some ec →
        (g3 = none → parse_evidence t = Except.ok ⟨ec, none⟩) ∧
        (∀ m, g3 = some m →
          (∀ st, strengthOfName (upper (String.mk m)) = some st →
            parse_evidence t = Except.ok ⟨ec, some st⟩) ∧
          (strengthOfName (upper (String.mk m)) = none →
            upper (String.mk m) ≠ "" →
            parse_evidence t = Except.error
              ("Invalid modifier '" ++ upper (String.mk m) ++
                "' for evidence code " ++ t))))) := by
  constructor
  · intro h
    simp only [parse_evidence, h]
  · intro g1 g3 hre
    constructor
    · intro hl
      simp only [parse_evidence, hre, hl]
    · intro ec hl
      constructor
      · rintro rfl
        simp only [parse_evidence, hre, hl, Option.getD_none]
        rfl
      · rintro m rfl
        constructor
        · intro st hst
          unfold strengthOfName at hst
          simp only [parse_evidence, hre, hl, Option.getD_some]
          split_ifs at hst ⊢ <;> simp_all
        · intro hnone hne
          unfold strengthOfName at hnone
          simp only [parse_evidence, hre, hl, Option.getD_some]
          split_ifs at hnone ⊢ <;> simp_all

/-- C1 witness: the three error branches of `parse_evidence_cases` at the
concrete tokens `QX` (no grammar match), `PA2` (code absent from the
table) and `PM1_FOO` (unrecognized modifier). -/
theorem parse_evidence_cases_witness :
    parse_evidence "QX" = Except.error "Unable to parse evidence code QX" ∧
    parse_evidence "PA2" = Except.error "Invalid evidence code PA2" ∧
    parse_evidence "PM1_FOO" =
      Except.error "Invalid modifier 'FOO' for evidence code PM1_FOO" := by
  refine ⟨(parse_evidence_cases "QX").1 (by decide), ?_, ?_⟩
  · exact ((parse_evidence_cases "PA2").2 "PA2".toList none (by decide)).1 (by decide)
  · exact ((((parse_evidence_cases "PM1_FOO").2 "PM1".toList (some "FOO".toList)
      (by decide)).2 _ rfl).2 "FOO".toList rfl).2 (by decide) (by decide)

/-- C4: collecting parsed evidence into the ordered set collapses
duplicates (two `Evidence` are equal exactly when they hold the same
`EvidenceCode` and the same optional modifier) and sorts the remaining
entries, so the result depends only on which evidence values occur — any
permutation or duplication of the input yields the same displayed sequence
and total score; in particular `PVS1, PVS1, PVS1` yields one entry scoring
8, and `PVS1 PM2`, `PM2, PVS1` and `[PM2 PVS1]` produce identical output. -/
theorem dedup_sort_invariance :
    (∀ e₁ e₂ : Evidence, e₁ = e₂ ↔
      e₁.evidence_code = e₂.evidence_code ∧ e₁.modifier = e₂.modifier) ∧
    (∀ l₁ l₂ : List Evidence, (∀ x, x ∈ l₁ ↔ x ∈ l₂) → ofListE l₁ = ofListE l₂) ∧
    (∀ l : List Evidence, (ofListE l).Sorted evLt ∧ (ofListE l).Nodup ∧
      ∀ x, x ∈ ofListE l ↔ x ∈ l) ∧
    runInfo "PVS1, PVS1, PVS1" = runInfo "PVS1" ∧
    ((runInfo "PVS1, PVS1, PVS1").map fun r => (r.entries.length, r.score)) =
      Except.ok (1, 8) ∧
    runInfo "PVS1 PM2" = runInfo "PM2, PVS1" ∧
    runInfo "PM2, PVS1" = runInfo "[PM2 PVS1]" := by
  refine ⟨?_, ?_, ?_, by decide, by decide, by decide, by decide⟩
  · rintro ⟨c₁, m₁⟩ ⟨c₂, m₂⟩
    simp [Evidence.mk.injEq]
  · intro l₁ l₂ hm
    exact sorted_mem_eq (sorted_ofListE l₁) (sorted_ofListE l₂)
      fun x => by rw [mem_ofListE, mem_ofListE]; exact hm x
  · intro l
    exact ⟨sorted_ofListE l, nodup_of_sorted (sorted_ofListE l), mem_ofListE l⟩

/-- C4 witness: the invariance statement of `dedup_sort_invariance` at a
concrete duplicated list. -/
theorem dedup_sort_invariance_witness :
    ofListE [⟨⟨Category.Pathogenic, EvidenceStrength.VeryStrong, 1, "d"⟩, none⟩,
        ⟨⟨Category.Pathogenic, EvidenceStrength.VeryStrong, 1, "d"⟩, none⟩] =
      ofListE [⟨⟨Category.Pathogenic, EvidenceStrength.VeryStrong, 1, "d"⟩, none⟩] := by
  refine dedup_sort_invariance.2.1 _ _ ?_
  intro x
  simp [List.mem_cons]

/-- C6: a run either fully succeeds or fully fails: when the token list
contains a failing token (every token before it parsing), the whole run
aborts with exactly that token's parse error and produces no report; and a
report exists exactly when every token parses. -/
theorem run_all_or_nothing :
    (∀ (input : String) (pre : List String) (t : String) (post : List String)
        (msg : String),
      normalize_input input = pre ++ t :: post →
      (∀ u ∈ pre, ∃ ev, parse_evidence u = Except.ok ev) →
      parse_evidence t = Except.error msg →
      runInfo input = Except.error msg) ∧
    (∀ input : String, (∃ r, runInfo input = Except.ok r) ↔
      ∀ u ∈ normalize_input input, ∃ ev, parse_evidence u = Except.ok ev) := by
  constructor
  · intro input pre t post msg hsplit hpre herr
    have h := parseAll_error_at pre t post msg hpre herr
    simp only [runInfo, hsplit, h]
  · intro input
    rw [← parseAll_ok_iff]
    constructor
    · rintro ⟨r, hr⟩
      cases hp : parseAll (normalize_input input) with
      | error e => rw [runInfo, hp] at hr; cases hr
      | ok evs => exact ⟨evs, rfl⟩
    · rintro ⟨evs, hevs⟩
      exact ⟨_, by rw [runInfo, hevs]⟩

/-- C6 witness: `run_all_or_nothing` at the concrete input `PVS1 QX`, whose
second token fails to parse after the first one succeeds. -/
theorem run_all_or_nothing_witness :
    runInfo "PVS1 QX" = Except.error "Unable to parse evidence code QX" := by
  refine run_all_or_nothing.1 "PVS1 QX" ["PVS1"] "QX" [] _ (by decide) ?_ (by decide)
  intro u hu
  rw [show u = "PVS1" by simpa using hu]
  exact ⟨_, rfl⟩

/-- C8: `normalize_input` removes every `[` and `]`, trims the ends, and
splits on maximal runs of spaces and commas; the characters of each token
come from the input unchanged (no uppercasing) and are neither separators
nor brackets; and an empty or all-whitespace input yields the single empty
token (which `parse_evidence` then rejects, see `run_all_or_nothing`). -/
theorem normalize_input_spec :
    (∀ s : String, normalize_input s =
      (splitRuns (trimEnds (s.toList.filter fun c => !isBracketB c))).map String.mk) ∧
    (∀ (s : String) (tok : String), tok ∈ normalize_input s →
      ∀ c ∈ tok.toList, c ∈ s.toList ∧ isSepB c = false ∧ isBracketB c = false) ∧
    (∀ s : String, s.toList.all Char.isWhitespace = true → normalize_input s = [""]) := by
  refine ⟨fun s => rfl, ?_, ?_⟩
  · intro s tok htok c hc
    simp only [normalize_input, List.mem_map] at htok
    obtain ⟨p, hp, rfl⟩ := htok
    have hc' : c ∈ p := hc
    have h1 := mem_splitRuns_chars _ p hp c hc'
    have h2 := mem_trimEnds h1.1
    have h3 := List.mem_filter.mp h2
    refine ⟨h3.1, h1.2, ?_⟩
    simpa using h3.2
  · intro s hws
    have hall : ∀ c ∈ s.toList.filter (fun c => !isBracketB c), c.isWhitespace := by
      intro c hcf
      exact List.all_eq_true.mp hws c (List.mem_filter.mp hcf).1
    calc normalize_input s
        = (splitRuns (trimEnds (s.toList.filter fun c => !isBracketB c))).map
            String.mk := rfl
      _ = [""] := by rw [trimEnds_all_ws hall]; rfl

/-- C8 witness: `normalize_input_spec` at the all-whitespace input
`" \t "` and, for the token-character part, at the input `" [PVS1] "` and
its only token `PVS1`. -/
theorem normalize_input_spec_witness :
    normalize_input " \t " = [""] ∧
    ('V' ∈ " [PVS1] ".toList ∧ isSepB 'V' = false ∧ isBracketB 'V' = false) := by
  exact ⟨normalize_input_spec.2.2 " \t " (by decide),
    normalize_input_spec.2.1 " [PVS1] " "PVS1" (by decide) 'V' (by decide)⟩

end Acmg
